import Mathlib

/-!
Shallow embedding of `src/cypress/pages/practice-form.js`, a page-object
module for a browser form: selector constants, an interaction-trace
semantics for the form-filling operations (`fill`, `selectGender`,
`selectSubjects`, `selectHobbies`, `uploadPicture`, `selectLocation`), and
the populated/missing classification computed by `validateSubmission`.

JavaScript values that flow through the module are modelled by `JVal`
(undefined, string, or array of strings — the shapes the fixtures use),
with JS truthiness made explicit.  Operations that drive the browser are
modelled by the list of commands they issue, in order; a JS-level type
error in the module's own code (calling `forEach` on a string) is modelled
by `Option.none`.  The external dayjs date collaborator is modelled from
the spec, parameterised by an abstract parser and the current date.
-/

set_option autoImplicit false

namespace PracticeForm

/-- A JavaScript value as used by this module: `undefined`, a string, or an
array of strings (fixture values are strings or lists of strings). -/
inductive JVal where
  | undefined : JVal
  | str (s : String) : JVal
  | arr (xs : List String) : JVal
deriving DecidableEq, Repr

/-- JS truthiness for the values of `JVal`: `undefined` is falsy, a string
is truthy iff non-empty, and an array is always truthy (even `[]`). -/
def JVal.truthy : JVal → Bool
  | .undefined => false
  | .str s => s ≠ ""
  | .arr _ => true

/-- String coercion as performed by JS template interpolation and `type`:
a string is itself, an array stringifies to its comma-joined elements,
`undefined` prints as "undefined". -/
def JVal.toJSString : JVal → String
  | .undefined => "undefined"
  | .str s => s
  | .arr xs => String.intercalate "," xs

/- Page element selectors (the module's constants, verbatim). -/

def url : String := "automation-practice-form"

def pageHeader : String := ".main-header"

def pageTitle : String := "Practice Form"

/-- The `form` selector object: lookup of a logical field name, `none` for
a key absent from the object (JS property access yields `undefined`). -/
def formLookup : String → Option String
  | "firstName" => some "#firstName"
  | "lastName" => some "#lastName"
  | "email" => some "#userEmail"
  | "gender" => some "[type=\"radio\"]"
  | "mobile" => some "#userNumber"
  | "dob" => some "#dateOfBirthInput"
  | "subjects" => some "#subjectsContainer"
  | "subjectsDropDown" => some ".subjects-auto-complete__menu"
  | "hobbies" => some "[type=\"checkbox\"]"
  | "picture" => some "#uploadPicture"
  | "address" => some "#currentAddress"
  | "state" => some "#state"
  | "city" => some "#city"
  | _ => none

def submitButton : String := "#submit"

def modal : String := ".modal-content"

/-- One command issued to the browser-automation framework.  The module's
side effects are the ordered list of these commands. -/
inductive Interaction where
  | visitUrl (u : String) : Interaction
  | assertContains (selector : String) (text : String) : Interaction
  | typeInto (selector : String) (text : String) : Interaction
  | selectDate (selector : String) (date : String) : Interaction
  | click (selector : String) (forced : Bool) : Interaction
  | assertCount (selector : String) (n : Nat) : Interaction
  | containsSiblingClick (text : String) (siblingSelector : String) : Interaction
  | attachFile (selector : String) (file : String) : Interaction
deriving DecidableEq, Repr

/-- Model of `visit()`: navigate to the form URL and assert the page header text. -/
def visit : List Interaction :=
  [.visitUrl url, .assertContains pageHeader pageTitle]

/-- Model of `selectGender(gender)`: no-op when falsy; otherwise a forced click on
the radio input whose value attribute equals the gender string. -/
def selectGender (gender : JVal) : List Interaction :=
  if gender.truthy then
    [.click ("[type=\"radio\"]" ++ "[value=\"" ++ gender.toJSString ++ "\"]") true]
  else
    []

/-- One type-ahead cycle of `selectSubjects`: type the subject, assert the
autocomplete dropdown matches exactly one element, click it. -/
def subjectCycle (subject : String) : List Interaction :=
  [.typeInto "#subjectsContainer" subject,
   .assertCount ".subjects-auto-complete__menu" 1,
   .click ".subjects-auto-complete__menu" false]

/-- Model of `selectSubjects(subjects = [])`: `undefined` takes the default empty
list; an array is iterated with `forEach`, issuing one full cycle per
subject in order; a string argument is a JS type error (`forEach` is not a
string method), modelled as `none`. -/
def selectSubjects (subjects : JVal) : Option (List Interaction) :=
  match subjects with
  | .undefined => some []
  | .arr xs => some (xs.foldl (fun acc subject => acc ++ subjectCycle subject) [])
  | .str _ => none

/-- Model of `selectHobbies(hobbies = [])`: for each hobby label, find the text and
force-click the checkbox sibling; a string argument is a JS type error. -/
def selectHobbies (hobbies : JVal) : Option (List Interaction) :=
  match hobbies with
  | .undefined => some []
  | .arr xs =>
      some (xs.foldl (fun acc hobby => acc ++ [.containsSiblingClick hobby "[type=\"checkbox\"]"]) [])
  | .str _ => none

/-- Model of `uploadPicture(file)`: no-op when falsy, otherwise attach the file. -/
def uploadPicture (file : JVal) : List Interaction :=
  if file.truthy then
    [.attachFile "#uploadPicture" file.toJSString]
  else
    []

/-- Model of `selectLocation(state, city)`: nothing when `state` is falsy; type the
state first; the city is typed only when both are truthy, after the
state. -/
def selectLocation (state city : JVal) : List Interaction :=
  if state.truthy then
    [.typeInto "#state" (state.toJSString ++ "{enter}")]
      ++ (if city.truthy then [.typeInto "#city" (city.toJSString ++ "{enter}")] else [])
  else
    []

/-- The caller-supplied `formValues` object: logical field name to value
(`.undefined` for an absent key). -/
def FormValues : Type := String → JVal

/-- The text-input loop body of `fill` for one field name: if the value is
truthy, type it into the field's selector; a lookup miss while issuing the
command (`cy.get(undefined)`) aborts the run. -/
def textFieldTrace (formValues : FormValues) (field : String) : Option (List Interaction) :=
  if (formValues field).truthy then
    match formLookup field with
    | some sel => some [.typeInto sel (formValues field).toJSString]
    | none => none
  else
    some []

/-- The `fieldTypes.text.forEach` loop of `fill`: the per-field commands
in field-list order. -/
def textTraces (formValues : FormValues) : List String → Option (List Interaction)
  | [] => some []
  | field :: rest => do
      let t ← textFieldTrace formValues field
      let ts ← textTraces formValues rest
      some (t ++ ts)

/-- Model of `fill(formValues)`: type each truthy text-type field in the fixed
field list (the `fieldTypes.text` fixture, passed here as `fieldList`),
select the date of birth when present, then gender, subjects, hobbies,
picture, and state/city, in that order. -/
def fill (fieldList : List String) (formValues : FormValues) : Option (List Interaction) := do
  let textTrace ← textTraces formValues fieldList
  let dobTrace :=
    if (formValues "dob").truthy then
      [Interaction.selectDate "#dateOfBirthInput" (formValues "dob").toJSString]
    else []
  let subjectsTrace ← selectSubjects (formValues "subjects")
  let hobbiesTrace ← selectHobbies (formValues "hobbies")
  some (textTrace ++ dobTrace
    ++ selectGender (formValues "gender")
    ++ subjectsTrace ++ hobbiesTrace
    ++ uploadPicture (formValues "picture")
    ++ selectLocation (formValues "state") (formValues "city"))

/- Date formatting: the external dayjs collaborator. -/

/-- A calendar date as the date collaborator renders it. -/
structure Date where
  day : Nat
  month : Nat
  year : Nat
deriving DecidableEq, Repr

/-- English month names as rendered by the `MMMM` format token. -/
def monthName : Nat → String
  | 1 => "January"
  | 2 => "February"
  | 3 => "March"
  | 4 => "April"
  | 5 => "May"
  | 6 => "June"
  | 7 => "July"
  | 8 => "August"
  | 9 => "September"
  | 10 => "October"
  | 11 => "November"
  | 12 => "December"
  | _ => ""

/-- Zero-padded two-digit rendering of the `DD` format token. -/
def pad2 (n : Nat) : String :=
  if n < 10 then "0" ++ toString n else toString n

/-- Rendering of the format string `DD MMMM,YYYY`. -/
def formatDDMMMMYYYY (d : Date) : String :=
  pad2 d.day ++ " " ++ monthName d.month ++ "," ++ toString d.year

/-- Modelled from the spec: the external date-formatting collaborator
(dayjs, not part of this repository) parses an optional date input — or
defaults to the current date `now` when the input is absent — and renders
it as `DD Month,YYYY`.  The parser is abstract (`parse`); an input it
cannot parse, or an array input, renders as the invalid-date marker. -/
def dayjsFormat (parse : String → Option Date) (now : Date) : JVal → String
  | .undefined => formatDDMMMMYYYY now
  | .str s =>
      match parse s with
      | some d => formatDDMMMMYYYY d
      | none => "Invalid Date"
  | .arr _ => "Invalid Date"

/- JS string primitives used by the picture branch. -/

/-- JS `lastIndexOf` on a list of characters: the index of the last occurrence
of `c`, or `-1` when absent (JS `String.prototype.lastIndexOf`). -/
def jsLastIndexOf (l : List Char) (c : Char) : Int :=
  match l with
  | [] => -1
  | a :: rest =>
      let r := jsLastIndexOf rest c
      if 0 ≤ r then r + 1
      else if a = c then 0 else -1

/-- Model of `picture.slice(picture.lastIndexOf('/') + 1)`: the basename of a path
(the whole string when it has no slash). -/
def jsBasename (s : String) : String :=
  String.mk (s.data.drop (jsLastIndexOf s.data '/' + 1).toNat)

/-- JS `lastIndexOf` on an array of strings (JS `Array.prototype.lastIndexOf`),
used when a picture value is an array. -/
def jsArrLastIndexOf (l : List String) (t : String) : Int :=
  match l with
  | [] => -1
  | a :: rest =>
      let r := jsArrLastIndexOf rest t
      if 0 ≤ r then r + 1
      else if a = t then 0 else -1

/- Submission mapping fixtures (shapes of
`fixtures/practice-form/submission-mapping.json`). -/

/-- A `direct` mapping entry: one source field, one table label. -/
structure DirectMapping where
  selector : String
  label : String
deriving DecidableEq, Repr

/-- A `concat` mapping entry: several source fields joined with a
delimiter into one table label (the fixture spells it `delimeter`). -/
structure ConcatMapping where
  selectors : List String
  label : String
  delimeter : String
deriving DecidableEq, Repr

/-- A `list` mapping entry: one source field expanding to one table row
per list element. -/
structure ListMapping where
  selector : String
  label : String
deriving DecidableEq, Repr

/-- The whole submission-mapping fixture. -/
structure SubmissionMapping where
  direct : List DirectMapping
  concat : List ConcatMapping
  list : List ListMapping
  picture : String
  dob : String
deriving DecidableEq, Repr

/-- A populated-field record `{label, expValue}` driving a containment
assertion against the results table. -/
structure PopulatedField where
  label : String
  expValue : JVal
deriving DecidableEq, Repr

/-- The classification `validateSubmission` builds: populated records and
missing labels, each in push order. -/
structure ValidationResult where
  populated : List PopulatedField
  missing : List String
deriving DecidableEq, Repr

/-- The `direct` loop of `validateSubmission`: a truthy value is pushed as
a populated record, a falsy one records the label as missing. -/
def directResults (ev : String → JVal) : List DirectMapping → List PopulatedField × List String
  | [] => ([], [])
  | m :: rest =>
      let r := directResults ev rest
      if (ev m.selector).truthy then (⟨m.label, ev m.selector⟩ :: r.1, r.2)
      else (r.1, m.label :: r.2)

/-- The inner loop of one `concat` mapping: each selector's value (arrays
first joined with the delimiter) is appended to the accumulator when
truthy, with the delimiter between non-empty parts and none leading. -/
def concatValue (ev : String → JVal) (m : ConcatMapping) : String :=
  m.selectors.foldl
    (fun expValue selector =>
      let rawvalue := ev selector
      let value : JVal :=
        match rawvalue with
        | .arr xs => .str (String.intercalate m.delimeter xs)
        | v => v
      if value.truthy then
        if expValue.length = 0 then value.toJSString
        else expValue ++ m.delimeter ++ value.toJSString
      else expValue)
    ""

/-- The `concat` loop of `validateSubmission`: a non-empty accumulated
string is pushed as populated, an empty one records the label missing. -/
def concatResults (ev : String → JVal) : List ConcatMapping → List PopulatedField × List String
  | [] => ([], [])
  | m :: rest =>
      let r := concatResults ev rest
      if concatValue ev m ≠ "" then (⟨m.label, .str (concatValue ev m)⟩ :: r.1, r.2)
      else (r.1, m.label :: r.2)

/-- The `list` loop of `validateSubmission`: a truthy value is iterated
with `forEach`, pushing one populated record per element; a falsy value
records the label missing.  A truthy string value is a JS type error
(`forEach` on a string), modelled as `none`. -/
def listResults (ev : String → JVal) : List ListMapping → Option (List PopulatedField × List String)
  | [] => some ([], [])
  | m :: rest => do
      let r ← listResults ev rest
      match ev m.selector with
      | .arr xs => some (xs.map (fun v => ⟨m.label, JVal.str v⟩) ++ r.1, r.2)
      | .str s => if s ≠ "" then none else some (r.1, m.label :: r.2)
      | .undefined => some (r.1, m.label :: r.2)

/-- The picture branch of `validateSubmission`: a truthy picture pushes a
populated record with the basename of the path; a falsy one records the
picture label missing.  (An array picture is truthy; `slice` after
`lastIndexOf` then yields an array suffix.) -/
def pictureResult (ev : String → JVal) (pictureLabel : String) : List PopulatedField × List String :=
  match ev "picture" with
  | .str s =>
      if s ≠ "" then ([⟨pictureLabel, .str (jsBasename s)⟩], [])
      else ([], [pictureLabel])
  | .arr xs => ([⟨pictureLabel, .arr (xs.drop (jsArrLastIndexOf xs "/" + 1).toNat)⟩], [])
  | .undefined => ([], [pictureLabel])

/-- Model of `validateSubmission(expectedValues)`: build the populated records and
missing labels over the direct, concat and list mappings, the picture
special case, and the always-populated date-of-birth record; `none` marks
the JS type error of a truthy string under a list mapping.  The final
table assertions consume these two lists in order. -/
def validateSubmission (parse : String → Option Date) (now : Date)
    (sm : SubmissionMapping) (ev : String → JVal) : Option ValidationResult := do
  let d := directResults ev sm.direct
  let c := concatResults ev sm.concat
  let l ← listResults ev sm.list
  let p := pictureResult ev sm.picture
  let dobField : PopulatedField := ⟨sm.dob, .str (dayjsFormat parse now (ev "dob"))⟩
  some ⟨d.1 ++ c.1 ++ l.1 ++ p.1 ++ [dobField], d.2 ++ c.2 ++ l.2 ++ p.2⟩

/- Specification-side descriptions, written from the spec's words, to be
compared with the embedded code above. -/

/-- Specification view of one concatenation part: the selector's value,
joined with the delimiter first when it is itself a list, the empty string
when absent. -/
def resolvePart (d : String) : JVal → String
  | .undefined => ""
  | .str s => s
  | .arr xs => String.intercalate d xs

/-- Specification view of a concat mapping's parts: each selector's
resolved value, keeping only the non-empty ones. -/
def concatParts (ev : String → JVal) (m : ConcatMapping) : List String :=
  (m.selectors.map (fun s => resolvePart m.delimeter (ev s))).filter (· ≠ "")

/-- Tail of a delimiter-joined string: each part preceded by the
delimiter. -/
def joinTail (d : String) : List String → String
  | [] => ""
  | p :: rest => d ++ p ++ joinTail d rest

/-- Specification view of joining parts: the parts separated by the
delimiter, with no leading delimiter. -/
def joinWithDelim (d : String) : List String → String
  | [] => ""
  | p :: rest => p ++ joinTail d rest

/-- A value the `list` branch of `validateSubmission` handles without a JS
type error: anything but a truthy (non-empty) string. -/
def listOk : JVal → Bool
  | .str s => s = ""
  | _ => true

/-- A value `forEach` iteration handles without a JS type error: an array,
or `undefined` picked up by the default parameter. -/
def forEachOk : JVal → Bool
  | .str _ => false
  | _ => true

/-- The concat accumulation loop over already-resolved parts. -/
def concatFold (d : String) (parts : List String) : String :=
  parts.foldl
    (fun expValue p =>
      if p ≠ "" then
        if expValue.length = 0 then p else expValue ++ d ++ p
      else expValue)
    ""

/- Helper lemmas. -/

lemma string_length_zero_iff (s : String) : s.length = 0 ↔ s = "" := by
  constructor
  · intro h
    exact String.ext (List.length_eq_zero.mp h)
  · intro h
    subst h
    rfl

lemma string_append_ne_empty (a b : String) (hb : b ≠ "") : a ++ b ≠ "" := by
  intro h
  apply hb
  have hlen : a.length + b.length = 0 := by
    have := congrArg String.length h
    simpa using this
  rw [← string_length_zero_iff]
  omega

lemma concatValue_eq_fold (ev : String → JVal) (m : ConcatMapping) :
    concatValue ev m
      = concatFold m.delimeter (m.selectors.map (fun s => resolvePart m.delimeter (ev s))) := by
  unfold concatValue concatFold
  rw [List.foldl_map]
  apply congrFun
  apply congrFun
  apply congrArg
  funext expValue selector
  cases h : ev selector <;> simp [resolvePart, JVal.truthy, JVal.toJSString]

lemma concatFold_go (d : String) (l : List String) :
    ∀ acc : String, acc ≠ "" →
      l.foldl
        (fun expValue p =>
          if p ≠ "" then
            if expValue.length = 0 then p else expValue ++ d ++ p
          else expValue)
        acc
      = acc ++ joinTail d (l.filter (· ≠ "")) := by
  induction l with
  | nil => intro acc _; simp [joinTail]
  | cons p rest ih =>
      intro acc hacc
      by_cases hp : p = ""
      · subst hp
        simpa using ih acc hacc
      · have hlen : ¬ acc.length = 0 := by
          rw [string_length_zero_iff]; exact hacc
        have hstep : (if p ≠ "" then (if acc.length = 0 then p else acc ++ d ++ p) else acc)
            = acc ++ d ++ p := by
          simp [hp, hlen]
        have hne : acc ++ d ++ p ≠ "" := string_append_ne_empty _ _ hp
        simp only [List.foldl_cons, hstep]
        rw [ih _ hne]
        simp [List.filter_cons, hp, joinTail, String.append_assoc]

lemma concatFold_eq (d : String) (l : List String) :
    concatFold d l = joinWithDelim d (l.filter (· ≠ "")) := by
  unfold concatFold
  induction l with
  | nil => simp [joinWithDelim]
  | cons p rest ih =>
      by_cases hp : p = ""
      · subst hp
        simpa [List.filter_cons] using ih
      · have hstep : (if p ≠ "" then (if ("" : String).length = 0 then p else "" ++ d ++ p) else "")
            = p := by simp [hp]
        simp only [List.foldl_cons, hstep]
        rw [concatFold_go d rest p hp]
        simp [List.filter_cons, hp, joinWithDelim]

lemma concatValue_spec (ev : String → JVal) (m : ConcatMapping) :
    concatValue ev m = joinWithDelim m.delimeter (concatParts ev m) := by
  rw [concatValue_eq_fold, concatFold_eq]
  rfl

lemma foldl_append_go {α β : Type} (f : α → List β) :
    ∀ (l : List α) (acc : List β),
      l.foldl (fun acc x => acc ++ f x) acc = acc ++ (l.map f).flatten := by
  intro l
  induction l with
  | nil => intro acc; simp
  | cons a rest ih =>
      intro acc
      simp only [List.foldl_cons, List.map_cons, List.flatten_cons]
      rw [ih]
      simp [List.append_assoc]

lemma listResults_eq_of_ok (ev : String → JVal) (ms : List ListMapping)
    (hok : ∀ m ∈ ms, listOk (ev m.selector) = true) :
    listResults ev ms = some
      ((ms.map (fun m =>
          match ev m.selector with
          | .arr xs => xs.map (fun v => (⟨m.label, JVal.str v⟩ : PopulatedField))
          | _ => [])).flatten,
       (ms.filter (fun m => !(ev m.selector).truthy)).map (fun m => m.label)) := by
  induction ms with
  | nil => rfl
  | cons m rest ih =>
      have hm := hok m (List.mem_cons_self m rest)
      have hrest : ∀ m' ∈ rest, listOk (ev m'.selector) = true := by
        intro m' hm'
        exact hok m' (List.mem_cons_of_mem m hm')
      unfold listResults
      rw [ih hrest]
      cases hv : ev m.selector with
      | arr xs =>
          simp [List.filter_cons, JVal.truthy, hv]
      | str s =>
          have hs : s = "" := by
            have := hm
            rw [hv] at this
            simpa [listOk] using this
          subst hs
          simp [List.filter_cons, JVal.truthy, hv]
      | undefined =>
          simp [List.filter_cons, JVal.truthy, hv]

lemma validateSubmission_some (parse : String → Option Date) (now : Date)
    (sm : SubmissionMapping) (ev : String → JVal)
    (lp : List PopulatedField) (lm : List String)
    (h : listResults ev sm.list = some (lp, lm)) :
    validateSubmission parse now sm ev = some
      ⟨(directResults ev sm.direct).1 ++ (concatResults ev sm.concat).1 ++ lp
         ++ (pictureResult ev sm.picture).1
         ++ [⟨sm.dob, .str (dayjsFormat parse now (ev "dob"))⟩],
       (directResults ev sm.direct).2 ++ (concatResults ev sm.concat).2 ++ lm
         ++ (pictureResult ev sm.picture).2⟩ := by
  unfold validateSubmission
  rw [h]
  rfl

lemma directResults_fst_label (ev : String → JVal) (ms : List DirectMapping)
    (rec : PopulatedField) (h : rec ∈ (directResults ev ms).1) :
    rec.label ∈ ms.map DirectMapping.label := by
  induction ms with
  | nil => simp [directResults] at h
  | cons m rest ih =>
      unfold directResults at h
      by_cases ht : (ev m.selector).truthy
      · simp only [ht, if_pos] at h
        rcases List.mem_cons.mp h with h1 | h1
        · subst h1; simp
        · simp only [List.map_cons, List.mem_cons]
          exact Or.inr (ih h1)
      · simp only [ht, if_neg, Bool.false_eq_true, not_false_iff] at h
        simp only [List.map_cons, List.mem_cons]
        exact Or.inr (ih h)

lemma directResults_snd_label (ev : String → JVal) (ms : List DirectMapping)
    (l : String) (h : l ∈ (directResults ev ms).2) :
    l ∈ ms.map DirectMapping.label := by
  induction ms with
  | nil => simp [directResults] at h
  | cons m rest ih =>
      unfold directResults at h
      by_cases ht : (ev m.selector).truthy
      · simp only [ht, if_pos] at h
        simp only [List.map_cons, List.mem_cons]
        exact Or.inr (ih h)
      · simp only [ht, if_neg, Bool.false_eq_true, not_false_iff] at h
        rcases List.mem_cons.mp h with h1 | h1
        · subst h1; simp
        · simp only [List.map_cons, List.mem_cons]
          exact Or.inr (ih h1)

lemma concatResults_fst_mem (ev : String → JVal) (ms : List ConcatMapping)
    (rec : PopulatedField) (h : rec ∈ (concatResults ev ms).1) :
    ∃ m ∈ ms, rec = ⟨m.label, .str (concatValue ev m)⟩ ∧ concatValue ev m ≠ "" := by
  induction ms with
  | nil => simp [concatResults] at h
  | cons m rest ih =>
      unfold concatResults at h
      by_cases hv : concatValue ev m = ""
      · rw [if_neg (by simpa using hv)] at h
        obtain ⟨m', hm', hrec, hne⟩ := ih h
        exact ⟨m', List.mem_cons_of_mem m hm', hrec, hne⟩
      · rw [if_pos hv] at h
        rcases List.mem_cons.mp h with h1 | h1
        · exact ⟨m, List.mem_cons_self m rest, h1, hv⟩
        · obtain ⟨m', hm', hrec, hne⟩ := ih h1
          exact ⟨m', List.mem_cons_of_mem m hm', hrec, hne⟩

lemma concatResults_snd_mem (ev : String → JVal) (ms : List ConcatMapping)
    (m : ConcatMapping) (hm : m ∈ ms) (hv : concatValue ev m = "") :
    m.label ∈ (concatResults ev ms).2 := by
  induction ms with
  | nil => simp at hm
  | cons m' rest ih =>
      unfold concatResults
      rcases List.mem_cons.mp hm with h1 | h1
      · subst h1
        rw [if_neg (by simpa using hv)]
        exact List.mem_cons_self _ _
      · by_cases hv' : concatValue ev m' = ""
        · rw [if_neg (by simpa using hv')]
          exact List.mem_cons_of_mem _ (ih h1)
        · rw [if_pos hv']
          exact ih h1

lemma concatResults_snd_label (ev : String → JVal) (ms : List ConcatMapping)
    (l : String) (h : l ∈ (concatResults ev ms).2) :
    l ∈ ms.map ConcatMapping.label := by
  induction ms with
  | nil => simp [concatResults] at h
  | cons m rest ih =>
      unfold concatResults at h
      by_cases hv : concatValue ev m = ""
      · rw [if_neg (by simpa using hv)] at h
        rcases List.mem_cons.mp h with h1 | h1
        · subst h1; simp
        · simp only [List.map_cons, List.mem_cons]
          exact Or.inr (ih h1)
      · rw [if_pos hv] at h
        simp only [List.map_cons, List.mem_cons]
        exact Or.inr (ih h)

lemma listResults_labels (ev : String → JVal) (ms : List ListMapping) :
    ∀ r, listResults ev ms = some r →
      (∀ rec ∈ r.1, rec.label ∈ ms.map ListMapping.label)
        ∧ (∀ l ∈ r.2, l ∈ ms.map ListMapping.label) := by
  induction ms with
  | nil =>
      intro r h
      simp only [listResults, Option.some.injEq] at h
      subst h
      exact ⟨fun rec h => by simp at h, fun l h => by simp at h⟩
  | cons m rest ih =>
      intro r h
      unfold listResults at h
      cases hrest : listResults ev rest with
      | none => rw [hrest] at h; simp at h
      | some r' =>
          rw [hrest] at h
          simp only [Option.bind_eq_bind, Option.some_bind] at h
          obtain ⟨ih1, ih2⟩ := ih r' hrest
          cases hv : ev m.selector with
          | arr xs =>
              rw [hv] at h
              simp only [Option.some.injEq] at h
              subst h
              refine ⟨fun rec hrec => ?_, fun l hl => ?_⟩
              · rcases List.mem_append.mp hrec with h1 | h1
                · obtain ⟨v, _, hv'⟩ := List.mem_map.mp h1
                  subst hv'
                  simp
                · simp only [List.map_cons, List.mem_cons]
                  exact Or.inr (ih1 rec h1)
              · simp only [List.map_cons, List.mem_cons]
                exact Or.inr (ih2 l hl)
          | str s =>
              rw [hv] at h
              by_cases hs : s = ""
              · subst hs
                have h2 : some ((r'.1, m.label :: r'.2) : List PopulatedField × List String)
                    = some r := h
                simp only [Option.some.injEq] at h2
                subst h2
                refine ⟨fun rec hrec => ?_, fun l hl => ?_⟩
                · simp only [List.map_cons, List.mem_cons]
                  exact Or.inr (ih1 rec hrec)
                · rcases List.mem_cons.mp hl with h1 | h1
                  · subst h1; simp
                  · simp only [List.map_cons, List.mem_cons]
                    exact Or.inr (ih2 l h1)
              · have h2 : (if s ≠ "" then (none : Option (List PopulatedField × List String))
                    else some (r'.1, m.label :: r'.2)) = some r := h
                rw [if_pos hs] at h2
                simp at h2
          | undefined =>
              rw [hv] at h
              simp only [Option.some.injEq] at h
              subst h
              refine ⟨fun rec hrec => ?_, fun l hl => ?_⟩
              · simp only [List.map_cons, List.mem_cons]
                exact Or.inr (ih1 rec hrec)
              · rcases List.mem_cons.mp hl with h1 | h1
                · subst h1; simp
                · simp only [List.map_cons, List.mem_cons]
                  exact Or.inr (ih2 l h1)

lemma pictureResult_str (ev : String → JVal) (pictureLabel : String) (s : String)
    (hpic : ev "picture" = .str s) (hs : s ≠ "") :
    pictureResult ev pictureLabel = ([⟨pictureLabel, .str (jsBasename s)⟩], []) := by
  unfold pictureResult
  rw [hpic]
  simp [hs]

lemma pictureResult_falsy (ev : String → JVal) (pictureLabel : String)
    (h : (ev "picture").truthy = false) :
    pictureResult ev pictureLabel = ([], [pictureLabel]) := by
  unfold pictureResult
  cases hv : ev "picture" with
  | undefined => rfl
  | str s =>
      rw [hv] at h
      simp only [JVal.truthy] at h
      simp [of_decide_eq_false h]
  | arr xs => rw [hv] at h; simp [JVal.truthy] at h

lemma pictureResult_fst_label (ev : String → JVal) (pictureLabel : String)
    (rec : PopulatedField) (h : rec ∈ (pictureResult ev pictureLabel).1) :
    rec.label = pictureLabel := by
  unfold pictureResult at h
  cases hv : ev "picture" with
  | undefined => rw [hv] at h; simp at h
  | str s =>
      rw [hv] at h
      by_cases hs : s = ""
      · subst hs; simp at h
      · simp only [hs, if_pos, ne_eq, not_false_iff, List.mem_singleton] at h
        subst h; rfl
  | arr xs =>
      rw [hv] at h
      simp only [List.mem_singleton] at h
      subst h; rfl

lemma pictureResult_snd_label (ev : String → JVal) (pictureLabel : String)
    (l : String) (h : l ∈ (pictureResult ev pictureLabel).2) :
    l = pictureLabel := by
  unfold pictureResult at h
  cases hv : ev "picture" with
  | undefined => rw [hv] at h; simpa using h
  | str s =>
      rw [hv] at h
      by_cases hs : s = ""
      · subst hs; simpa using h
      · simp [hs] at h
  | arr xs => rw [hv] at h; simp at h

/- JS `lastIndexOf` facts. -/

lemma jsLastIndexOf_of_not_mem (c : Char) (l : List Char) (h : c ∉ l) :
    jsLastIndexOf l c = -1 := by
  induction l with
  | nil => rfl
  | cons a rest ih =>
      have ha : a ≠ c := fun hac => h (hac ▸ List.mem_cons_self a rest)
      have hrest : c ∉ rest := fun hc => h (List.mem_cons_of_mem a hc)
      unfold jsLastIndexOf
      rw [ih hrest]
      simp [ha]

lemma jsLastIndexOf_nonneg_of_mem (c : Char) (l : List Char) (h : c ∈ l) :
    0 ≤ jsLastIndexOf l c := by
  induction l with
  | nil => simp at h
  | cons a rest ih =>
      unfold jsLastIndexOf
      by_cases hr : 0 ≤ jsLastIndexOf rest c
      · rw [if_pos hr]; omega
      · rw [if_neg hr]
        rcases List.mem_cons.mp h with h1 | h1
        · simp [h1.symm]
        · exact absurd (ih h1) hr

lemma jsBasename_no_slash (s : String) (h : '/' ∉ s.data) : jsBasename s = s := by
  unfold jsBasename
  rw [jsLastIndexOf_of_not_mem '/' s.data h]
  rfl

lemma drop_jsLastIndexOf_eq_nil_iff (c : Char) :
    ∀ l : List Char, l ≠ [] →
      (l.drop ((jsLastIndexOf l c + 1).toNat) = [] ↔ l.getLast? = some c) := by
  intro l
  induction l with
  | nil => intro h; exact absurd rfl h
  | cons a rest ih =>
      intro _
      cases hrest : rest with
      | nil =>
          subst hrest
          unfold jsLastIndexOf
          by_cases hac : a = c
          · subst hac
            simp [jsLastIndexOf]
          · simp [jsLastIndexOf, hac, Ne.symm hac]
      | cons b rest' =>
          have hne : rest ≠ [] := by rw [hrest]; simp
          rw [← hrest]
          unfold jsLastIndexOf
          by_cases hr : 0 ≤ jsLastIndexOf rest c
          · rw [if_pos hr]
            have htn : (jsLastIndexOf rest c + 1 + 1).toNat
                = (jsLastIndexOf rest c + 1).toNat + 1 := by omega
            rw [htn, List.drop_succ_cons]
            have hlast : (a :: rest).getLast? = rest.getLast? := by
              rw [hrest]; exact List.getLast?_cons_cons
            rw [hlast]
            exact ih hne
          · rw [if_neg hr]
            have hnm : c ∉ rest := fun hc => hr (jsLastIndexOf_nonneg_of_mem c rest hc)
            have hlastne : rest.getLast? ≠ some c := by
              intro hl
              exact hnm (List.mem_of_getLast?_eq_some hl)
            have hlast : (a :: rest).getLast? = rest.getLast? := by
              rw [hrest]; exact List.getLast?_cons_cons
            by_cases hac : a = c
            · rw [if_pos hac]
              constructor
              · intro hd
                simp only [Int.toNat_one, List.drop_succ_cons, List.drop_zero] at hd
                exact absurd hd hne
              · intro hl
                rw [hlast] at hl
                exact absurd hl hlastne
            · rw [if_neg hac]
              constructor
              · intro hd
                simp at hd
              · intro hl
                rw [hlast] at hl
                exact absurd hl hlastne

lemma jsBasename_eq_empty_iff (s : String) (hs : s ≠ "") :
    jsBasename s = "" ↔ s.data.getLast? = some '/' := by
  have hdata : s.data ≠ [] := by
    intro h
    exact hs (String.ext h)
  unfold jsBasename
  rw [← drop_jsLastIndexOf_eq_nil_iff '/' s.data hdata]
  constructor
  · intro h
    have := congrArg String.data h
    simpa using this
  · intro h
    rw [h]

lemma selectSubjects_arr (xs : List String) :
    selectSubjects (.arr xs) = some ((xs.map subjectCycle).flatten) := by
  show some (xs.foldl (fun acc subject => acc ++ subjectCycle subject) []) = _
  rw [foldl_append_go subjectCycle xs []]
  rfl

lemma selectHobbies_arr (xs : List String) :
    selectHobbies (.arr xs)
      = some ((xs.map
          (fun h => [Interaction.containsSiblingClick h "[type=\"checkbox\"]"])).flatten) := by
  show some (xs.foldl
      (fun acc hobby => acc ++ [Interaction.containsSiblingClick hobby "[type=\"checkbox\"]"]) [])
    = _
  rw [foldl_append_go (fun h => [Interaction.containsSiblingClick h "[type=\"checkbox\"]"]) xs []]
  rfl

lemma textTraces_eq (formValues : FormValues) (fieldList : List String)
    (hsel : ∀ f ∈ fieldList, (formValues f).truthy = true → (formLookup f).isSome = true) :
    textTraces formValues fieldList = some
      ((fieldList.map (fun f =>
          if (formValues f).truthy then
            [Interaction.typeInto ((formLookup f).getD "") (formValues f).toJSString]
          else [])).flatten) := by
  induction fieldList with
  | nil => rfl
  | cons field rest ih =>
      have hrest : ∀ f ∈ rest, (formValues f).truthy = true → (formLookup f).isSome = true :=
        fun f hf => hsel f (List.mem_cons_of_mem field hf)
      unfold textTraces
      rw [ih hrest]
      by_cases ht : (formValues field).truthy
      · have hlook : (formLookup field).isSome = true :=
          hsel field (List.mem_cons_self field rest) ht
        obtain ⟨sel, hsel'⟩ := Option.isSome_iff_exists.mp hlook
        have htrace : textFieldTrace formValues field
            = some [Interaction.typeInto sel (formValues field).toJSString] := by
          unfold textFieldTrace
          rw [if_pos ht, hsel']
        rw [htrace]
        simp [ht, hsel']
      · have htrace : textFieldTrace formValues field = some [] := by
          unfold textFieldTrace
          rw [if_neg ht]
        rw [htrace]
        simp [ht]

lemma concatResults_fst_label (ev : String → JVal) (ms : List ConcatMapping)
    (rec : PopulatedField) (h : rec ∈ (concatResults ev ms).1) :
    rec.label ∈ ms.map ConcatMapping.label := by
  obtain ⟨m', hm', hrec', _⟩ := concatResults_fst_mem ev ms rec h
  rw [hrec']
  exact List.mem_map.mpr ⟨m', hm', rfl⟩

/- Concrete instances used by counterexamples and witnesses. -/

def noParse : String → Option Date := fun _ => none

def sampleDate : Date := ⟨1, 1, 2026⟩

def smEmpty : SubmissionMapping := ⟨[], [], [], "Picture", "Date of Birth"⟩

def smHobbies : SubmissionMapping :=
  ⟨[], [], [⟨"hobbies", "Hobbies"⟩], "Picture", "Date of Birth"⟩

def evEmptyHobbies : String → JVal := fun k => if k = "hobbies" then .arr [] else .undefined

def smSubjects : SubmissionMapping :=
  ⟨[], [], [⟨"subjects", "Subjects"⟩], "Picture", "Date of Birth"⟩

def evSubjects : String → JVal :=
  fun k => if k = "subjects" then .arr ["Maths", "Physics"] else .undefined

def mName : ConcatMapping := ⟨["a", "b"], "Name", " "⟩

def smName : SubmissionMapping := ⟨[], [mName], [], "Picture", "Date of Birth"⟩

def evAB : String → JVal :=
  fun k => if k = "a" then .str "X" else if k = "b" then .arr ["Y", "Z"] else .undefined

def evAbsent : String → JVal := fun _ => .undefined

def evPhoto : String → JVal :=
  fun k => if k = "picture" then .str "/fixtures/images/photo.png" else .undefined

def evPhotoName : String → JVal :=
  fun k => if k = "picture" then .str "photo.png" else .undefined

def evSlashPic : String → JVal := fun k => if k = "picture" then .str "a/" else .undefined

def evJane : FormValues := fun k => if k = "firstName" then .str "Jane" else .undefined

/- Claims. -/

/-- Claim C6: `selectLocation(state, city)` performs nothing when `state`
is falsy (the city field is never touched without a state, whatever the
city value); with a truthy state and a falsy city it types only into the
state field; the city field is typed into only when both are truthy, and
then strictly after the state. -/
theorem selectLocation_state_gates_city (state city : JVal) :
    (state.truthy = false → selectLocation state city = []) ∧
    (state.truthy = true → city.truthy = false →
      selectLocation state city
        = [.typeInto "#state" (state.toJSString ++ "{enter}")]) ∧
    (state.truthy = true → city.truthy = true →
      selectLocation state city
        = [.typeInto "#state" (state.toJSString ++ "{enter}"),
           .typeInto "#city" (city.toJSString ++ "{enter}")]) := by
  refine ⟨fun h => ?_, fun hs hc => ?_, fun hs hc => ?_⟩ <;> simp [selectLocation, *]

/-- Witness for C6 at state `"NCR"` with no city, and no state with city
`"Delhi"`. -/
theorem selectLocation_state_gates_city_witness :
    selectLocation (JVal.str "NCR") JVal.undefined
      = [Interaction.typeInto "#state" "NCR{enter}"] ∧
    selectLocation JVal.undefined (JVal.str "Delhi") = [] :=
  ⟨(selectLocation_state_gates_city (JVal.str "NCR") JVal.undefined).2.1 (by decide) (by decide),
   (selectLocation_state_gates_city JVal.undefined (JVal.str "Delhi")).1 (by decide)⟩

/-- Claim C7: `selectSubjects` issues, for each subject in list order, one
full cycle of type, assert-single-suggestion, click, each cycle completed
before the next begins; `["Maths", "Physics"]` gives exactly two cycles in
order. -/
theorem selectSubjects_sequential_cycles :
    (∀ subjects : List String,
      selectSubjects (.arr subjects) = some ((subjects.map subjectCycle).flatten)) ∧
    selectSubjects (.arr ["Maths", "Physics"])
      = some [.typeInto "#subjectsContainer" "Maths",
              .assertCount ".subjects-auto-complete__menu" 1,
              .click ".subjects-auto-complete__menu" false,
              .typeInto "#subjectsContainer" "Physics",
              .assertCount ".subjects-auto-complete__menu" 1,
              .click ".subjects-auto-complete__menu" false] :=
  ⟨selectSubjects_arr, by decide⟩

/-- Claim C9: `validateSubmission` is deterministic in its input: two runs
on the same expected values (with the same parser and current date) yield
the same populated records and the same missing labels. -/
theorem validateSubmission_deterministic (parse : String → Option Date) (now : Date)
    (sm : SubmissionMapping) (ev : String → JVal) (r1 r2 : ValidationResult)
    (h1 : validateSubmission parse now sm ev = some r1)
    (h2 : validateSubmission parse now sm ev = some r2) :
    r1.populated = r2.populated ∧ r1.missing = r2.missing := by
  rw [h1] at h2
  injection h2 with h
  rw [h]
  exact ⟨rfl, rfl⟩

/-- Witness for C9 on the empty expected-values map. -/
theorem validateSubmission_deterministic_witness :
    (⟨[⟨"Date of Birth", JVal.str "01 January,2026"⟩], ["Picture"]⟩
        : ValidationResult).populated
      = (⟨[⟨"Date of Birth", JVal.str "01 January,2026"⟩], ["Picture"]⟩
        : ValidationResult).populated
    ∧ (⟨[⟨"Date of Birth", JVal.str "01 January,2026"⟩], ["Picture"]⟩
        : ValidationResult).missing
      = (⟨[⟨"Date of Birth", JVal.str "01 January,2026"⟩], ["Picture"]⟩
        : ValidationResult).missing :=
  validateSubmission_deterministic noParse sampleDate smEmpty evAbsent _ _
    (by decide) (by decide)

/-- Claim C1 (counterexample): with a list mapping for `"Hobbies"` and
`expectedValues.hobbies = []`, the empty array is truthy in JS, so the
label is neither recorded missing nor populated — the claim's "empty list
is recorded as missing" fails. -/
theorem list_empty_array_not_missing_cex :
    (validateSubmission noParse sampleDate smHobbies evEmptyHobbies).map
        (fun r => decide ("Hobbies" ∈ r.missing)
          || r.populated.any (fun rec => rec.label == "Hobbies"))
      = some false := by decide

/-- Claim C1 (amended): for a list mapping, a list value (truthy even when
empty) yields exactly one populated record per element in list order —
zero records and no missing entry for the empty list — and the label is
recorded missing exactly when the value is falsy (absent or an empty
string); a truthy non-list value is a JS type error. -/
theorem validateSubmission_list_expansion (parse : String → Option Date) (now : Date)
    (sm : SubmissionMapping) (ev : String → JVal)
    (hok : ∀ m ∈ sm.list, listOk (ev m.selector) = true) :
    ∃ r, validateSubmission parse now sm ev = some r ∧
      r.populated
        = (directResults ev sm.direct).1 ++ (concatResults ev sm.concat).1
          ++ (sm.list.map (fun m =>
                match ev m.selector with
                | .arr xs => xs.map (fun v => (⟨m.label, JVal.str v⟩ : PopulatedField))
                | _ => [])).flatten
          ++ (pictureResult ev sm.picture).1
          ++ [⟨sm.dob, .str (dayjsFormat parse now (ev "dob"))⟩] ∧
      r.missing
        = (directResults ev sm.direct).2 ++ (concatResults ev sm.concat).2
          ++ (sm.list.filter (fun m => !(ev m.selector).truthy)).map (fun m => m.label)
          ++ (pictureResult ev sm.picture).2 :=
  ⟨_, validateSubmission_some parse now sm ev _ _ (listResults_eq_of_ok ev sm.list hok),
   rfl, rfl⟩

/-- Witness for C1 (amended) on a two-element subjects list. -/
theorem validateSubmission_list_expansion_witness :
    ∃ r, validateSubmission noParse sampleDate smSubjects evSubjects = some r ∧
      r.populated
        = (directResults evSubjects smSubjects.direct).1
          ++ (concatResults evSubjects smSubjects.concat).1
          ++ (smSubjects.list.map (fun m =>
                match evSubjects m.selector with
                | .arr xs => xs.map (fun v => (⟨m.label, JVal.str v⟩ : PopulatedField))
                | _ => [])).flatten
          ++ (pictureResult evSubjects smSubjects.picture).1
          ++ [⟨smSubjects.dob, .str (dayjsFormat noParse sampleDate (evSubjects "dob"))⟩] ∧
      r.missing
        = (directResults evSubjects smSubjects.direct).2
          ++ (concatResults evSubjects smSubjects.concat).2
          ++ (smSubjects.list.filter
                (fun m => !(evSubjects m.selector).truthy)).map (fun m => m.label)
          ++ (pictureResult evSubjects smSubjects.picture).2 :=
  validateSubmission_list_expansion noParse sampleDate smSubjects evSubjects (by decide)

/-- Claim C2: the expected string of a concat mapping takes each
selector's value in order (a list value joined with the delimiter first)
and joins the non-empty parts with the delimiter, no leading delimiter;
with `{a: "X", b: ["Y","Z"]}` and delimiter `" "` the accumulated string
is `"X Y Z"`, and validateSubmission records it populated. -/
theorem validateSubmission_concatenation :
    (∀ (ev : String → JVal) (m : ConcatMapping),
      concatValue ev m = joinWithDelim m.delimeter (concatParts ev m)) ∧
    concatValue evAB mName = "X Y Z" ∧
    (validateSubmission noParse sampleDate smName evAB).map
        (fun r => decide ((⟨"Name", JVal.str "X Y Z"⟩ : PopulatedField) ∈ r.populated))
      = some true :=
  ⟨concatValue_spec, by decide, by decide⟩

/-- Claim C3: a concat mapping all of whose selectors resolve to falsy or
empty values is classified missing, and concat mappings never produce a
populated record with an empty string value. -/
theorem validateSubmission_concat_all_empty_missing (parse : String → Option Date)
    (now : Date) (sm : SubmissionMapping) (ev : String → JVal) (m : ConcatMapping)
    (hm : m ∈ sm.concat)
    (hok : ∀ m' ∈ sm.list, listOk (ev m'.selector) = true)
    (hfalsy : ∀ s ∈ m.selectors, resolvePart m.delimeter (ev s) = "") :
    ∃ r, validateSubmission parse now sm ev = some r ∧
      m.label ∈ r.missing ∧
      ∀ rec ∈ (concatResults ev sm.concat).1, rec.expValue ≠ JVal.str "" := by
  have hparts : concatParts ev m = [] := by
    unfold concatParts
    rw [List.filter_eq_nil_iff]
    intro p hp
    obtain ⟨s, hs, hps⟩ := List.mem_map.mp hp
    subst hps
    simp [hfalsy s hs]
  have hval : concatValue ev m = "" := by
    rw [concatValue_spec, hparts]
    rfl
  have hsome := validateSubmission_some parse now sm ev _ _ (listResults_eq_of_ok ev sm.list hok)
  refine ⟨_, hsome, ?_, ?_⟩
  · dsimp only
    have hmem := concatResults_snd_mem ev sm.concat m hm hval
    exact List.mem_append.mpr (Or.inl (List.mem_append.mpr (Or.inl
      (List.mem_append.mpr (Or.inr hmem)))))
  · intro rec hrec
    obtain ⟨m', _, hrec', hne⟩ := concatResults_fst_mem ev sm.concat rec hrec
    subst hrec'
    simpa using hne

/-- Witness for C3 on the two-selector space-delimited mapping with all
values absent. -/
theorem validateSubmission_concat_all_empty_missing_witness :
    ∃ r, validateSubmission noParse sampleDate smName evAbsent = some r ∧
      "Name" ∈ r.missing ∧
      ∀ rec ∈ (concatResults evAbsent smName.concat).1, rec.expValue ≠ JVal.str "" :=
  validateSubmission_concat_all_empty_missing noParse sampleDate smName evAbsent mName
    (by decide) (by decide) (by decide)

/-- Claim C4: the date-of-birth label is always populated exactly once and
never missing (given the fixture labels are distinct, as in the shipped
mapping); its value is `expectedValues.dob` rendered `DD Month,YYYY` when
present and parseable, and the current date so rendered when absent. -/
theorem validateSubmission_dob_always_populated (parse : String → Option Date) (now : Date)
    (sm : SubmissionMapping) (ev : String → JVal)
    (hok : ∀ m ∈ sm.list, listOk (ev m.selector) = true)
    (hd : sm.dob ∉ sm.direct.map DirectMapping.label)
    (hc : sm.dob ∉ sm.concat.map ConcatMapping.label)
    (hl : sm.dob ∉ sm.list.map ListMapping.label)
    (hp : sm.dob ≠ sm.picture) :
    ∃ r, validateSubmission parse now sm ev = some r ∧
      r.populated.filter (fun rec => rec.label = sm.dob)
        = [⟨sm.dob, .str (dayjsFormat parse now (ev "dob"))⟩] ∧
      sm.dob ∉ r.missing ∧
      (ev "dob" = .undefined → dayjsFormat parse now (ev "dob") = formatDDMMMMYYYY now) ∧
      (∀ s d, ev "dob" = .str s → parse s = some d →
        dayjsFormat parse now (ev "dob") = formatDDMMMMYYYY d) := by
  obtain ⟨lp, lm, hlr⟩ : ∃ lp lm, listResults ev sm.list = some (lp, lm) := by
    rw [listResults_eq_of_ok ev sm.list hok]
    exact ⟨_, _, rfl⟩
  have hlabels := listResults_labels ev sm.list (lp, lm) hlr
  have hsome := validateSubmission_some parse now sm ev lp lm hlr
  refine ⟨_, hsome, ?_, ?_, ?_, ?_⟩
  · dsimp only
    rw [List.filter_append, List.filter_append, List.filter_append, List.filter_append]
    have h1 : (directResults ev sm.direct).1.filter (fun rec => rec.label = sm.dob) = [] := by
      rw [List.filter_eq_nil_iff]
      intro rec hrec
      simp only [decide_eq_true_eq]
      intro heq
      exact hd (heq ▸ directResults_fst_label ev sm.direct rec hrec)
    have h2 : (concatResults ev sm.concat).1.filter (fun rec => rec.label = sm.dob) = [] := by
      rw [List.filter_eq_nil_iff]
      intro rec hrec
      simp only [decide_eq_true_eq]
      intro heq
      exact hc (heq ▸ concatResults_fst_label ev sm.concat rec hrec)
    have h3 : lp.filter (fun rec => rec.label = sm.dob) = [] := by
      rw [List.filter_eq_nil_iff]
      intro rec hrec
      simp only [decide_eq_true_eq]
      intro heq
      exact hl (heq ▸ hlabels.1 rec hrec)
    have h4 : (pictureResult ev sm.picture).1.filter (fun rec => rec.label = sm.dob) = [] := by
      rw [List.filter_eq_nil_iff]
      intro rec hrec
      simp only [decide_eq_true_eq]
      intro heq
      exact hp ((heq ▸ pictureResult_fst_label ev sm.picture rec hrec) : sm.dob = sm.picture)
    rw [h1, h2, h3, h4]
    simp
  · dsimp only
    intro hmem
    rcases List.mem_append.mp hmem with hmem1 | h4
    · rcases List.mem_append.mp hmem1 with hmem2 | h3
      · rcases List.mem_append.mp hmem2 with h1 | h2
        · exact hd (directResults_snd_label ev sm.direct _ h1)
        · exact hc (concatResults_snd_label ev sm.concat _ h2)
      · exact hl (hlabels.2 _ h3)
    · exact hp (pictureResult_snd_label ev sm.picture _ h4)
  · intro h
    rw [h]
    rfl
  · intro s d hsd hparse
    rw [hsd]
    simp [dayjsFormat, hparse]

/-- Witness for C4 on the empty expected-values map: the DOB record is
today's date. -/
theorem validateSubmission_dob_always_populated_witness :
    ∃ r, validateSubmission noParse sampleDate smEmpty evAbsent = some r ∧
      r.populated.filter (fun rec => rec.label = "Date of Birth")
        = [⟨"Date of Birth", .str (dayjsFormat noParse sampleDate (evAbsent "dob"))⟩] ∧
      "Date of Birth" ∉ r.missing ∧
      (evAbsent "dob" = .undefined →
        dayjsFormat noParse sampleDate (evAbsent "dob") = formatDDMMMMYYYY sampleDate) ∧
      (∀ s d, evAbsent "dob" = .str s → noParse s = some d →
        dayjsFormat noParse sampleDate (evAbsent "dob") = formatDDMMMMYYYY d) :=
  validateSubmission_dob_always_populated noParse sampleDate smEmpty evAbsent
    (by decide) (by decide) (by decide) (by decide) (by decide)

/-- Claim C5: a truthy picture path yields a populated record under the
picture label whose value is the basename of the path (the substring
after the last slash), `"/fixtures/images/photo.png"` giving
`"photo.png"`; a falsy picture records the label missing. -/
theorem validateSubmission_picture_basename (parse : String → Option Date) (now : Date)
    (sm : SubmissionMapping) (ev : String → JVal)
    (hok : ∀ m ∈ sm.list, listOk (ev m.selector) = true) :
    ∃ r, validateSubmission parse now sm ev = some r ∧
      (∀ s, ev "picture" = .str s → s ≠ "" →
        (⟨sm.picture, .str (jsBasename s)⟩ : PopulatedField) ∈ r.populated) ∧
      ((ev "picture").truthy = false → sm.picture ∈ r.missing) ∧
      jsBasename "/fixtures/images/photo.png" = "photo.png" := by
  obtain ⟨lp, lm, hlr⟩ : ∃ lp lm, listResults ev sm.list = some (lp, lm) := by
    rw [listResults_eq_of_ok ev sm.list hok]
    exact ⟨_, _, rfl⟩
  have hsome := validateSubmission_some parse now sm ev lp lm hlr
  refine ⟨_, hsome, ?_, ?_, by decide⟩
  · dsimp only
    intro s hpic hs
    have hpr := pictureResult_str ev sm.picture s hpic hs
    apply List.mem_append.mpr
    apply Or.inl
    apply List.mem_append.mpr
    apply Or.inr
    rw [hpr]
    simp
  · dsimp only
    intro hfal
    have hpr := pictureResult_falsy ev sm.picture hfal
    apply List.mem_append.mpr
    apply Or.inr
    rw [hpr]
    simp

/-- Witness for C5 on the fixture photo path. -/
theorem validateSubmission_picture_basename_witness :
    ∃ r, validateSubmission noParse sampleDate smEmpty evPhoto = some r ∧
      (∀ s, evPhoto "picture" = .str s → s ≠ "" →
        (⟨"Picture", .str (jsBasename s)⟩ : PopulatedField) ∈ r.populated) ∧
      ((evPhoto "picture").truthy = false → "Picture" ∈ r.missing) ∧
      jsBasename "/fixtures/images/photo.png" = "photo.png" :=
  validateSubmission_picture_basename noParse sampleDate smEmpty evPhoto (by decide)

/-- Claim C10 (counterexample): the non-empty path `"a/"` has basename
`""`, and validateSubmission then populates the picture label with the
empty string — so basename extraction can yield an empty value for a
non-empty path. -/
theorem picture_trailing_slash_empty_basename_cex :
    jsBasename "a/" = "" ∧ ("a/" : String) ≠ "" ∧
    (validateSubmission noParse sampleDate smEmpty evSlashPic).map
        (fun r => decide ((⟨"Picture", JVal.str ""⟩ : PopulatedField) ∈ r.populated))
      = some true := by decide

/-- Claim C10 (amended): for a truthy string picture with no slash the
populated record's value is the entire string (`lastIndexOf` is `-1`, the
slice starts at 0); extraction never fails, and for a non-empty path the
value is empty exactly when the path ends with a slash. -/
theorem validateSubmission_picture_no_slash (parse : String → Option Date) (now : Date)
    (sm : SubmissionMapping) (ev : String → JVal) (s : String)
    (hok : ∀ m ∈ sm.list, listOk (ev m.selector) = true)
    (hpic : ev "picture" = .str s) (hs : s ≠ "") :
    ∃ r, validateSubmission parse now sm ev = some r ∧
      (⟨sm.picture, .str (jsBasename s)⟩ : PopulatedField) ∈ r.populated ∧
      ('/' ∉ s.data → jsBasename s = s) ∧
      (jsBasename s = "" ↔ s.data.getLast? = some '/') := by
  obtain ⟨lp, lm, hlr⟩ : ∃ lp lm, listResults ev sm.list = some (lp, lm) := by
    rw [listResults_eq_of_ok ev sm.list hok]
    exact ⟨_, _, rfl⟩
  have hsome := validateSubmission_some parse now sm ev lp lm hlr
  refine ⟨_, hsome, ?_, fun h => jsBasename_no_slash s h, jsBasename_eq_empty_iff s hs⟩
  dsimp only
  have hpr := pictureResult_str ev sm.picture s hpic hs
  apply List.mem_append.mpr
  apply Or.inl
  apply List.mem_append.mpr
  apply Or.inr
  rw [hpr]
  simp

/-- Witness for C10 (amended) on the slash-free path `"photo.png"`. -/
theorem validateSubmission_picture_no_slash_witness :
    ∃ r, validateSubmission noParse sampleDate smEmpty evPhotoName = some r ∧
      (⟨"Picture", .str (jsBasename "photo.png")⟩ : PopulatedField) ∈ r.populated ∧
      ('/' ∉ ("photo.png" : String).data → jsBasename "photo.png" = "photo.png") ∧
      (jsBasename "photo.png" = "" ↔ ("photo.png" : String).data.getLast? = some '/') :=
  validateSubmission_picture_no_slash noParse sampleDate smEmpty evPhotoName "photo.png"
    (by decide) (by decide) (by decide)

/-- Claim C8: `fill` types each text-type field of the fixed field list
exactly when its value is truthy (falsy values leave the field untouched),
and every optional field — gender, dob, subjects, hobbies, picture,
state/city — contributes zero interactions when its value is falsy or
absent. -/
theorem fill_touches_iff_truthy (fieldList : List String) (fv : FormValues)
    (hsel : ∀ f ∈ fieldList, (fv f).truthy = true → (formLookup f).isSome = true)
    (hsub : forEachOk (fv "subjects") = true)
    (hhob : forEachOk (fv "hobbies") = true) :
    ∃ t, fill fieldList fv = some t ∧
      t = ((fieldList.map (fun f =>
            if (fv f).truthy then
              [Interaction.typeInto ((formLookup f).getD "") (fv f).toJSString]
            else [])).flatten)
        ++ (if (fv "dob").truthy then
              [Interaction.selectDate "#dateOfBirthInput" (fv "dob").toJSString]
            else [])
        ++ selectGender (fv "gender")
        ++ (match fv "subjects" with
            | .arr xs => (xs.map subjectCycle).flatten
            | _ => [])
        ++ (match fv "hobbies" with
            | .arr xs => (xs.map (fun h =>
                [Interaction.containsSiblingClick h "[type=\"checkbox\"]"])).flatten
            | _ => [])
        ++ uploadPicture (fv "picture")
        ++ selectLocation (fv "state") (fv "city") ∧
      ((fv "gender").truthy = false → selectGender (fv "gender") = []) ∧
      ((fv "dob").truthy = false →
        (if (fv "dob").truthy then
          [Interaction.selectDate "#dateOfBirthInput" (fv "dob").toJSString]
        else []) = []) ∧
      (fv "subjects" = .undefined → selectSubjects (fv "subjects") = some []) ∧
      (fv "hobbies" = .undefined → selectHobbies (fv "hobbies") = some []) ∧
      ((fv "picture").truthy = false → uploadPicture (fv "picture") = []) ∧
      ((fv "state").truthy = false → selectLocation (fv "state") (fv "city") = []) := by
  have hsubj : selectSubjects (fv "subjects") = some (match fv "subjects" with
      | .arr xs => (xs.map subjectCycle).flatten
      | _ => ([] : List Interaction)) := by
    cases hv : fv "subjects" with
    | undefined => rfl
    | arr xs => exact selectSubjects_arr xs
    | str s => rw [hv] at hsub; simp [forEachOk] at hsub
  have hhobv : selectHobbies (fv "hobbies") = some (match fv "hobbies" with
      | .arr xs => (xs.map (fun h =>
          [Interaction.containsSiblingClick h "[type=\"checkbox\"]"])).flatten
      | _ => ([] : List Interaction)) := by
    cases hv : fv "hobbies" with
    | undefined => rfl
    | arr xs => exact selectHobbies_arr xs
    | str s => rw [hv] at hhob; simp [forEachOk] at hhob
  have htext := textTraces_eq fv fieldList hsel
  refine ⟨_, ?_, rfl, ?_, ?_, ?_, ?_, ?_, ?_⟩
  · unfold fill
    rw [htext, hsubj, hhobv]
    rfl
  · intro h; simp [selectGender, h]
  · intro h; simp [h]
  · intro h; rw [h]; rfl
  · intro h; rw [h]; rfl
  · intro h; simp [uploadPicture, h]
  · intro h; simp [selectLocation, h]

/-- Witness for C8: filling only the first name field. -/
theorem fill_touches_iff_truthy_witness :
    ∃ t, fill ["firstName", "lastName"] evJane = some t ∧
      t = ((["firstName", "lastName"].map (fun f =>
            if (evJane f).truthy then
              [Interaction.typeInto ((formLookup f).getD "") (evJane f).toJSString]
            else [])).flatten)
        ++ (if (evJane "dob").truthy then
              [Interaction.selectDate "#dateOfBirthInput" (evJane "dob").toJSString]
            else [])
        ++ selectGender (evJane "gender")
        ++ (match evJane "subjects" with
            | .arr xs => (xs.map subjectCycle).flatten
            | _ => [])
        ++ (match evJane "hobbies" with
            | .arr xs => (xs.map (fun h =>
                [Interaction.containsSiblingClick h "[type=\"checkbox\"]"])).flatten
            | _ => [])
        ++ uploadPicture (evJane "picture")
        ++ selectLocation (evJane "state") (evJane "city") ∧
      ((evJane "gender").truthy = false → selectGender (evJane "gender") = []) ∧
      ((evJane "dob").truthy = false →
        (if (evJane "dob").truthy then
          [Interaction.selectDate "#dateOfBirthInput" (evJane "dob").toJSString]
        else []) = []) ∧
      (evJane "subjects" = .undefined → selectSubjects (evJane "subjects") = some []) ∧
      (evJane "hobbies" = .undefined → selectHobbies (evJane "hobbies") = some []) ∧
      ((evJane "picture").truthy = false → uploadPicture (evJane "picture") = []) ∧
      ((evJane "state").truthy = false →
        selectLocation (evJane "state") (evJane "city") = []) :=
  fill_touches_iff_truthy ["firstName", "lastName"] evJane
    (by decide) (by decide) (by decide)

end PracticeForm
